import Mathlib

/-
  Verification of the OpenSplit timer/split state machine and coordinator.

  The Go sources are shallowly embedded: durations (`time.Duration`, a signed
  64-bit nanosecond count) become `Int`; wall-clock instants (`time.Time`)
  become `Int` nanosecond timestamps, and every operation that reads the wall
  clock (`time.Now()` / `time.Since`) takes the current instant `now : Int` as
  an explicit argument.  Go slices become Lean lists.  The `status` field keeps
  the source's string representation ("stopped" / "running" / "paused").
-/

namespace OpenSplit

/-- Record of one completed split (timer source, struct `Split`). -/
structure Split where
  name : String
  segmentTime : Int
  cumulativeTime : Int
  delta : Int
deriving DecidableEq, Repr

/-- Predefined split layout entry (timer source, struct `SplitDefinition`). -/
structure SplitDefinition where
  name : String
  icon : String
deriving DecidableEq, Repr

/-- Full timer state (timer source, struct `TimerState`).  `startTime` embeds
the `time.Time` anchor as an absolute nanosecond instant. -/
structure TimerState where
  currentTime : Int
  status : String
  splits : List Split
  predefinedSplits : List SplitDefinition
  timerTitle : String
  currentSplitIndex : Int
  startTime : Int
  pausedAt : Int
  bestSplitTimes : List Int
  bestCumulativeTimes : List Int
  personalBest : Int
  sumOfBest : Int
  pbSplitTimes : List Int
  worldRecord : Int
deriving DecidableEq, Repr

/-- Zero-valued split record, the stand-in for Go's zero `Split` used only as
the default of total list lookups. -/
def emptySplit : Split := ⟨"", 0, 0, 0⟩

/-- Zero-valued split definition, default of total list lookups. -/
def emptyDef : SplitDefinition := ⟨"", ""⟩

/-- Constructor `NewTimerState` from the timer source. -/
def NewTimerState : TimerState :=
  { currentTime := 0
    status := "stopped"
    splits := []
    predefinedSplits := []
    timerTitle := "OpenSplit"
    currentSplitIndex := -1
    startTime := 0
    pausedAt := 0
    bestSplitTimes := []
    bestCumulativeTimes := []
    personalBest := 0
    sumOfBest := 0
    pbSplitTimes := []
    worldRecord := 0 }

/-- Operation `Start` from the timer source: starts from "stopped" (anchoring
`startTime` to now, zeroing `pausedAt`, selecting split 0 when a layout
exists) or resumes from "paused" (shifting the anchor by the paused amount);
in every case the status afterwards is "running". -/
def Start (ts : TimerState) (now : Int) : TimerState :=
  let ts1 :=
    if ts.status = "stopped" then
      { ts with
        startTime := now, pausedAt := 0,
        currentSplitIndex :=
          if 0 < ts.predefinedSplits.length then 0 else ts.currentSplitIndex }
    else if ts.status = "paused" then
      { ts with startTime := now - ts.pausedAt }
    else ts
  { ts1 with status := "running" }

/-- Operation `Pause` from the timer source: toggles between "running" and
"paused", capturing respectively restoring the elapsed-time anchor. -/
def Pause (ts : TimerState) (now : Int) : TimerState :=
  if ts.status = "running" then
    { ts with pausedAt := now - ts.startTime, status := "paused" }
  else if ts.status = "paused" then
    { ts with startTime := now - ts.pausedAt, status := "running" }
  else ts

/-- Operation `Reset` from the timer source. -/
def Reset (ts : TimerState) : TimerState :=
  { ts with
    currentTime := 0, status := "stopped", splits := [],
    currentSplitIndex := -1, startTime := 0, pausedAt := 0 }

/-- Operation `SetPredefinedSplits` from the timer source: replaces the layout
and the title, clears `splits` when stopped, and reallocates the three
best-time arrays to the new length exactly when `bestSplitTimes` has a
different length. -/
def SetPredefinedSplits (ts : TimerState) (splits : List SplitDefinition)
    (title : String) : TimerState :=
  let ts1 :=
    { ts with
      predefinedSplits := splits, timerTitle := title,
      currentSplitIndex := -1 }
  let ts2 := if ts1.status = "stopped" then { ts1 with splits := [] } else ts1
  let numSplits := splits.length
  if ts2.bestSplitTimes.length ≠ numSplits then
    { ts2 with
      bestSplitTimes := List.replicate numSplits 0,
      bestCumulativeTimes := List.replicate numSplits 0,
      pbSplitTimes := List.replicate numSplits 0 }
  else ts2

/-- Operation `CalculateSumOfBest` from the timer source: recompute
`sumOfBest` by accumulating `bestSplitTimes` from zero. -/
def CalculateSumOfBest (ts : TimerState) : TimerState :=
  { ts with sumOfBest := ts.bestSplitTimes.foldl (fun acc b => acc + b) 0 }

/-- Best-times block of `NextSplit` from the timer source: when the index is
in range of `bestSplitTimes`, improve the best segment time (recomputing
`sumOfBest`) and then the best cumulative time, each when previously unset or
strictly beaten. -/
def updateBests (ts : TimerState) (segmentTime currentTime : Int) : TimerState :=
  if ts.currentSplitIndex < (ts.bestSplitTimes.length : Int) then
    let ts1 :=
      if ts.bestSplitTimes.getD ts.currentSplitIndex.toNat 0 = 0 ∨
          segmentTime < ts.bestSplitTimes.getD ts.currentSplitIndex.toNat 0 then
        CalculateSumOfBest
          { ts with bestSplitTimes :=
              ts.bestSplitTimes.set ts.currentSplitIndex.toNat segmentTime }
      else ts
    if ts1.bestCumulativeTimes.getD ts.currentSplitIndex.toNat 0 = 0 ∨
        currentTime < ts1.bestCumulativeTimes.getD ts.currentSplitIndex.toNat 0 then
      { ts1 with bestCumulativeTimes :=
          ts1.bestCumulativeTimes.set ts.currentSplitIndex.toNat currentTime }
    else ts1
  else ts

/-- Final-split block of `NextSplit` from the timer source: stop the timer,
record a personal best when first-ever or strictly lower (snapshotting the
run's cumulative times and possibly lowering a set world record), and mark the
run complete with index -1. -/
def finishRun (ts2 : TimerState) (currentTime : Int) : TimerState :=
  let ts3 := { ts2 with status := "stopped" }
  let ts4 :=
    if ts3.personalBest = 0 ∨ currentTime < ts3.personalBest then
      let ts4a : TimerState :=
        { ts3 with
          personalBest := currentTime,
          pbSplitTimes := ts3.splits.map (fun s => s.cumulativeTime) }
      if (0 : Int) < ts4a.worldRecord ∧ ts4a.personalBest < ts4a.worldRecord then
        { ts4a with worldRecord := ts4a.personalBest }
      else ts4a
    else ts3
  { ts4 with currentSplitIndex := -1 }

/-- Operation `NextSplit` from the timer source: no-op unless running with a
valid current index; otherwise compute the segment and cumulative times and
the delta, update best records, append the completed split, and either finish
the run (final split) or advance the index. -/
def NextSplit (ts : TimerState) (now : Int) : TimerState :=
  if ts.status ≠ "running" ∨ ts.currentSplitIndex < 0 ∨
      (ts.predefinedSplits.length : Int) ≤ ts.currentSplitIndex then
    ts
  else
    let segmentTime :=
      if 0 < ts.splits.length then
        (now - ts.startTime) - (ts.splits.getLastD emptySplit).cumulativeTime
      else now - ts.startTime
    let currentTime := now - ts.startTime
    let delta :=
      if ts.currentSplitIndex < (ts.bestCumulativeTimes.length : Int) ∧
          0 < ts.bestCumulativeTimes.getD ts.currentSplitIndex.toNat 0 then
        currentTime - ts.bestCumulativeTimes.getD ts.currentSplitIndex.toNat 0
      else 0
    let ts1 := updateBests ts segmentTime currentTime
    let ts2 :=
      { ts1 with
        currentTime := currentTime,
        splits := ts1.splits ++
          [{ name := (ts.predefinedSplits.getD ts.currentSplitIndex.toNat emptyDef).name,
             segmentTime := segmentTime, cumulativeTime := currentTime,
             delta := delta }] }
    if ts.currentSplitIndex = (ts.predefinedSplits.length : Int) - 1 then
      finishRun ts2 currentTime
    else
      { ts2 with currentSplitIndex := ts.currentSplitIndex + 1 }

/-- Operation `Update` from the timer source: refresh `currentTime` from the
wall clock while running. -/
def Update (ts : TimerState) (now : Int) : TimerState :=
  if ts.status = "running" then { ts with currentTime := now - ts.startTime }
  else ts

/-- Snapshot argument of `RestorePBData`: each field is absent (`none`, the
key is missing or of the wrong type) or present; a present array's entries are
`none` when the element is not a JSON number (the restore loop skips them,
leaving the freshly allocated zero). -/
structure PBSnapshot where
  bestSplitTimes : Option (List (Option Int))
  bestCumulativeTimes : Option (List (Option Int))
  personalBest : Option Int
  sumOfBest : Option Int
  pbSplitTimes : Option (List (Option Int))
  worldRecord : Option Int
deriving DecidableEq, Repr

/-- Restore of one duration array by `RestorePBData`: an absent field keeps
the old array, a present one is rebuilt at the snapshot's length with
non-numeric entries left zero. -/
def restoreTimes (old : List Int) : Option (List (Option Int)) → List Int
  | none => old
  | some vals => vals.map (fun v => v.getD 0)

/-- Operation `RestorePBData` from the timer source: bulk-overwrite the
personal-best bookkeeping from an imported snapshot. -/
def RestorePBData (ts : TimerState) (cmd : PBSnapshot) : TimerState :=
  { ts with
    bestSplitTimes := restoreTimes ts.bestSplitTimes cmd.bestSplitTimes,
    bestCumulativeTimes := restoreTimes ts.bestCumulativeTimes cmd.bestCumulativeTimes,
    personalBest := cmd.personalBest.getD ts.personalBest,
    sumOfBest := cmd.sumOfBest.getD ts.sumOfBest,
    pbSplitTimes := restoreTimes ts.pbSplitTimes cmd.pbSplitTimes,
    worldRecord := cmd.worldRecord.getD ts.worldRecord }

/-- The `setWorldRecord` command case of `Hub.handleCommand` (hub source):
direct overwrite of the world record. -/
def setWorldRecord (ts : TimerState) (w : Int) : TimerState :=
  { ts with worldRecord := w }

/-! ## Coordinator (hub.go) -/

/-- Modelled from the spec: the `Client` struct (connection adapter) is not
under src/; per §4.3 each observer owns a bounded outbound queue
(`send chan []byte`, capacity `ClientSendBufferSize` in config.go).  `queue`
holds the snapshots queued but not yet drained, `cap` the channel capacity. -/
structure Client where
  id : Nat
  cap : Nat
  queue : List TimerState
deriving DecidableEq, Repr

/-- A non-blocking send on the client's bounded queue succeeds exactly when
the queue is not full (the `select`/`default` in `broadcastState`). -/
def hasRoom (c : Client) : Bool := c.queue.length < c.cap

/-- Queueing one snapshot on a client's outbound queue. -/
def enqueue (st : TimerState) (c : Client) : Client :=
  { c with queue := c.queue ++ [st] }

/-- Function `broadcastState` from the hub source: attempt a non-blocking
send of the snapshot to each registered client; a client whose queue is full
has its queue closed and is deleted from the registry.  Returns the surviving
registry and the list of closed (dropped) clients. -/
def broadcastState : List Client → TimerState → List Client × List Client
  | [], _ => ([], [])
  | c :: rest, st =>
    let r := broadcastState rest st
    if hasRoom c then (enqueue st c :: r.1, r.2) else (r.1, c :: r.2)

/-- Decoded inbound command (the `cmd["command"]` dispatch alphabet of
`Hub.handleCommand` in the hub source).  `unknown` stands for any
unrecognized command value. -/
inductive Command where
  | start
  | pause
  | reset
  | setSplits (defs : List SplitDefinition) (title : String)
  | nextSplit
  | restorePB (snap : PBSnapshot)
  | setWR (w : Option Int)
  | unknown
deriving DecidableEq, Repr

/-- Function `Hub.handleCommand` from the hub source: dispatch one decoded
command to the timer state machine.  A `setWorldRecord` whose field is not a
JSON number (`none`) does nothing, and unrecognized commands are ignored. -/
def handleCommand (ts : TimerState) (cmd : Command) (now : Int) : TimerState :=
  match cmd with
  | .start => Start ts now
  | .pause => Pause ts now
  | .reset => Reset ts
  | .setSplits defs title => SetPredefinedSplits ts defs title
  | .nextSplit => NextSplit ts now
  | .restorePB snap => RestorePBData ts snap
  | .setWR (some w) => setWorldRecord ts w
  | .setWR none => ts
  | .unknown => ts

/-- An inbound frame as seen by the hub loop: either it fails JSON decoding
(`malformed`) or it decodes to a command object. -/
inductive Frame where
  | malformed
  | decoded (cmd : Command)
deriving DecidableEq, Repr

/-- The coordinator state: observer registry plus the one timer. -/
structure Hub where
  clients : List Client
  timer : TimerState
deriving DecidableEq, Repr

/-- The `message` case of `Hub.Run` from the hub source: a frame that fails
to decode is logged and skipped (`continue`); a decoded command is dispatched
and the resulting snapshot broadcast, dropping saturated clients. -/
def handleMessage (h : Hub) (f : Frame) (now : Int) : Hub :=
  match f with
  | .malformed => h
  | .decoded cmd =>
    let t := handleCommand h.timer cmd now
    { clients := (broadcastState h.clients t).1, timer := t }

/-! ## Trace semantics and spec-side measures -/

/-- A timed Start/Pause command, for elapsed-time traces. -/
inductive TEvent where
  | startCmd
  | pauseCmd
deriving DecidableEq, Repr

/-- Applying one timed Start/Pause command to the timer. -/
def applyTimed (ts : TimerState) (e : TEvent × Int) : TimerState :=
  match e.1 with
  | .startCmd => Start ts e.2
  | .pauseCmd => Pause ts e.2

/-- Running a whole trace of timed Start/Pause commands. -/
def runTrace (ts : TimerState) (evs : List (TEvent × Int)) : TimerState :=
  evs.foldl applyTimed ts

/-- Specification-side clock: the status, the wall-clock time accumulated
while the status was "running" up to the last command, and the instant of the
last command. -/
structure SpecClock where
  status : String
  runningTotal : Int
  lastEvent : Int
deriving DecidableEq, Repr

/-- Specification-side accounting of one timed Start/Pause command: time
advances the running total only while the status is "running"; `startCmd`
from "stopped" begins a fresh measurement, and the status transitions follow
the machine (Pause toggles). -/
def specTick (s : SpecClock) (e : TEvent × Int) : SpecClock :=
  match e.1 with
  | .startCmd =>
    if s.status = "stopped" then ⟨"running", 0, e.2⟩
    else if s.status = "paused" then ⟨"running", s.runningTotal, e.2⟩
    else ⟨"running", s.runningTotal + (e.2 - s.lastEvent), e.2⟩
  | .pauseCmd =>
    if s.status = "running" then ⟨"paused", s.runningTotal + (e.2 - s.lastEvent), e.2⟩
    else if s.status = "paused" then ⟨"running", s.runningTotal, e.2⟩
    else s

/-- Specification-side clock over a whole trace, from the initial stopped
clock. -/
def specTrace (evs : List (TEvent × Int)) : SpecClock :=
  evs.foldl specTick ⟨"stopped", 0, 0⟩

/-- Sum of the recorded segment times. -/
def segSum (l : List Split) : Int := (l.map (fun s => s.segmentTime)).sum

/-- Cumulative time of the last recorded split (zero when none). -/
def lastCum (l : List Split) : Int := (l.getLastD emptySplit).cumulativeTime

/-- Telescoping invariant: the recorded segment times sum to the last
recorded cumulative time. -/
def SegSumInv (ts : TimerState) : Prop := segSum ts.splits = lastCum ts.splits

/-- Derived-field invariant: `sumOfBest` is the arithmetic sum of
`bestSplitTimes`. -/
def SumOfBestInv (ts : TimerState) : Prop :=
  ts.sumOfBest = ts.bestSplitTimes.sum

/-- Parallel-array length invariant on the per-split best-time arrays. -/
def LenInv (ts : TimerState) : Prop :=
  ts.bestSplitTimes.length = ts.predefinedSplits.length ∧
  ts.bestCumulativeTimes.length = ts.predefinedSplits.length

/-- Correspondence between a timer state and the specification clock: the
statuses agree, and the internal anchors encode exactly the accumulated
running wall-clock time. -/
def ClockInv (ts : TimerState) (s : SpecClock) : Prop :=
  ts.status = s.status ∧
  (s.status = "stopped" ∨ s.status = "running" ∨ s.status = "paused") ∧
  (s.status = "running" → ts.startTime = s.lastEvent - s.runningTotal) ∧
  (s.status = "paused" → ts.pausedAt = s.runningTotal)

/-- States reachable from the initial state by any sequence of the timer
operations (with arbitrary arguments, snapshots included). -/
inductive Reachable : TimerState → Prop where
  | init : Reachable NewTimerState
  | start (ts : TimerState) (now : Int) : Reachable ts → Reachable (Start ts now)
  | pause (ts : TimerState) (now : Int) : Reachable ts → Reachable (Pause ts now)
  | reset (ts : TimerState) : Reachable ts → Reachable (Reset ts)
  | setSplits (ts : TimerState) (defs : List SplitDefinition) (title : String) :
      Reachable ts → Reachable (SetPredefinedSplits ts defs title)
  | next (ts : TimerState) (now : Int) : Reachable ts → Reachable (NextSplit ts now)
  | update (ts : TimerState) (now : Int) : Reachable ts → Reachable (Update ts now)
  | restore (ts : TimerState) (snap : PBSnapshot) :
      Reachable ts → Reachable (RestorePBData ts snap)
  | setWR (ts : TimerState) (w : Int) : Reachable ts → Reachable (setWorldRecord ts w)

/-- A restore snapshot whose best-time arrays, when present, match the
current layout length. -/
def SaneSnap (ts : TimerState) (snap : PBSnapshot) : Prop :=
  (∀ l, snap.bestSplitTimes = some l → l.length = ts.predefinedSplits.length) ∧
  (∀ l, snap.bestCumulativeTimes = some l → l.length = ts.predefinedSplits.length)

/-- States reachable when every `RestorePBData` call carries a layout-matching
snapshot (other operations unrestricted). -/
inductive ReachableSane : TimerState → Prop where
  | init : ReachableSane NewTimerState
  | start (ts : TimerState) (now : Int) : ReachableSane ts → ReachableSane (Start ts now)
  | pause (ts : TimerState) (now : Int) : ReachableSane ts → ReachableSane (Pause ts now)
  | reset (ts : TimerState) : ReachableSane ts → ReachableSane (Reset ts)
  | setSplits (ts : TimerState) (defs : List SplitDefinition) (title : String) :
      ReachableSane ts → ReachableSane (SetPredefinedSplits ts defs title)
  | next (ts : TimerState) (now : Int) : ReachableSane ts → ReachableSane (NextSplit ts now)
  | update (ts : TimerState) (now : Int) : ReachableSane ts → ReachableSane (Update ts now)
  | restore (ts : TimerState) (snap : PBSnapshot) : SaneSnap ts snap →
      ReachableSane ts → ReachableSane (RestorePBData ts snap)
  | setWR (ts : TimerState) (w : Int) : ReachableSane ts → ReachableSane (setWorldRecord ts w)

/-! ## Helper lemmas -/

theorem foldlAdd_eq_sum (l : List Int) (a : Int) :
    l.foldl (fun acc b => acc + b) a = a + l.sum := by
  induction l generalizing a with
  | nil => simp
  | cons x xs ih => simp [List.foldl_cons, ih (a + x)]; ring

theorem updateBests_personalBest (ts : TimerState) (s c : Int) :
    (updateBests ts s c).personalBest = ts.personalBest := by
  simp only [updateBests, CalculateSumOfBest]; split_ifs <;> rfl

theorem updateBests_pbSplitTimes (ts : TimerState) (s c : Int) :
    (updateBests ts s c).pbSplitTimes = ts.pbSplitTimes := by
  simp only [updateBests, CalculateSumOfBest]; split_ifs <;> rfl

theorem updateBests_worldRecord (ts : TimerState) (s c : Int) :
    (updateBests ts s c).worldRecord = ts.worldRecord := by
  simp only [updateBests, CalculateSumOfBest]; split_ifs <;> rfl

theorem updateBests_splits (ts : TimerState) (s c : Int) :
    (updateBests ts s c).splits = ts.splits := by
  simp only [updateBests, CalculateSumOfBest]; split_ifs <;> rfl

theorem updateBests_status (ts : TimerState) (s c : Int) :
    (updateBests ts s c).status = ts.status := by
  simp only [updateBests, CalculateSumOfBest]; split_ifs <;> rfl

theorem updateBests_currentSplitIndex (ts : TimerState) (s c : Int) :
    (updateBests ts s c).currentSplitIndex = ts.currentSplitIndex := by
  simp only [updateBests, CalculateSumOfBest]; split_ifs <;> rfl

theorem updateBests_currentTime (ts : TimerState) (s c : Int) :
    (updateBests ts s c).currentTime = ts.currentTime := by
  simp only [updateBests, CalculateSumOfBest]; split_ifs <;> rfl

theorem updateBests_startTime (ts : TimerState) (s c : Int) :
    (updateBests ts s c).startTime = ts.startTime := by
  simp only [updateBests, CalculateSumOfBest]; split_ifs <;> rfl

theorem updateBests_predefinedSplits (ts : TimerState) (s c : Int) :
    (updateBests ts s c).predefinedSplits = ts.predefinedSplits := by
  simp only [updateBests, CalculateSumOfBest]; split_ifs <;> rfl

theorem updateBests_bstLength (ts : TimerState) (s c : Int) :
    (updateBests ts s c).bestSplitTimes.length = ts.bestSplitTimes.length := by
  simp only [updateBests, CalculateSumOfBest]; split_ifs <;> simp

theorem updateBests_bctLength (ts : TimerState) (s c : Int) :
    (updateBests ts s c).bestCumulativeTimes.length = ts.bestCumulativeTimes.length := by
  simp only [updateBests, CalculateSumOfBest]; split_ifs <;> simp

theorem updateBests_sumOfBest (ts : TimerState) (s c : Int)
    (h : SumOfBestInv ts) : SumOfBestInv (updateBests ts s c) := by
  simp only [updateBests, CalculateSumOfBest, SumOfBestInv] at h ⊢
  split_ifs <;> simp [foldlAdd_eq_sum, h]

theorem finishRun_sumOfBest (ts2 : TimerState) (c : Int) :
    (finishRun ts2 c).sumOfBest = ts2.sumOfBest := by
  simp only [finishRun]; split_ifs <;> rfl

theorem finishRun_bestSplitTimes (ts2 : TimerState) (c : Int) :
    (finishRun ts2 c).bestSplitTimes = ts2.bestSplitTimes := by
  simp only [finishRun]; split_ifs <;> rfl

theorem finishRun_bestCumulativeTimes (ts2 : TimerState) (c : Int) :
    (finishRun ts2 c).bestCumulativeTimes = ts2.bestCumulativeTimes := by
  simp only [finishRun]; split_ifs <;> rfl

theorem finishRun_splits (ts2 : TimerState) (c : Int) :
    (finishRun ts2 c).splits = ts2.splits := by
  simp only [finishRun]; split_ifs <;> rfl

theorem finishRun_currentTime (ts2 : TimerState) (c : Int) :
    (finishRun ts2 c).currentTime = ts2.currentTime := by
  simp only [finishRun]; split_ifs <;> rfl

theorem finishRun_predefinedSplits (ts2 : TimerState) (c : Int) :
    (finishRun ts2 c).predefinedSplits = ts2.predefinedSplits := by
  simp only [finishRun]; split_ifs <;> rfl

theorem finishRun_status (ts2 : TimerState) (c : Int) :
    (finishRun ts2 c).status = "stopped" := by
  simp only [finishRun]; split_ifs <;> rfl

theorem finishRun_currentSplitIndex (ts2 : TimerState) (c : Int) :
    (finishRun ts2 c).currentSplitIndex = -1 := by
  simp [finishRun]

theorem finishRun_pb (u : TimerState) (c : Int) :
    (u.personalBest = 0 ∨ c < u.personalBest →
      (finishRun u c).personalBest = c ∧
      (finishRun u c).pbSplitTimes = u.splits.map (fun s => s.cumulativeTime) ∧
      (finishRun u c).worldRecord =
        if 0 < u.worldRecord ∧ c < u.worldRecord then c else u.worldRecord) ∧
    (¬ (u.personalBest = 0 ∨ c < u.personalBest) →
      (finishRun u c).personalBest = u.personalBest ∧
      (finishRun u c).pbSplitTimes = u.pbSplitTimes ∧
      (finishRun u c).worldRecord = u.worldRecord) := by
  simp only [finishRun]
  split_ifs with h1 h2 <;> constructor <;> intro h <;> simp_all

/-! ## Claim theorems -/

/-- C7: `Reset` yields status "stopped", empty splits, index -1, and zeroed
elapsed time and anchors, leaving the personal-best bookkeeping, the world
record, the layout and the title unchanged. -/
theorem reset_stops_and_preserves_bests (ts : TimerState) :
    (Reset ts).status = "stopped" ∧
    (Reset ts).splits = [] ∧
    (Reset ts).currentSplitIndex = -1 ∧
    (Reset ts).currentTime = 0 ∧
    (Reset ts).startTime = 0 ∧
    (Reset ts).pausedAt = 0 ∧
    (Reset ts).personalBest = ts.personalBest ∧
    (Reset ts).bestSplitTimes = ts.bestSplitTimes ∧
    (Reset ts).bestCumulativeTimes = ts.bestCumulativeTimes ∧
    (Reset ts).sumOfBest = ts.sumOfBest ∧
    (Reset ts).pbSplitTimes = ts.pbSplitTimes ∧
    (Reset ts).worldRecord = ts.worldRecord ∧
    (Reset ts).predefinedSplits = ts.predefinedSplits ∧
    (Reset ts).timerTitle = ts.timerTitle :=
  ⟨rfl, rfl, rfl, rfl, rfl, rfl, rfl, rfl, rfl, rfl, rfl, rfl, rfl, rfl⟩

/-- C6: `SetPredefinedSplits` with a split count different from the current
best-time array length replaces all three best-time arrays with zero-valued
arrays of the new length; with the same count it leaves their contents
untouched. -/
theorem setPredefinedSplits_bestArrays (ts : TimerState)
    (defs : List SplitDefinition) (title : String) :
    (defs.length ≠ ts.bestSplitTimes.length →
      (SetPredefinedSplits ts defs title).bestSplitTimes = List.replicate defs.length 0 ∧
      (SetPredefinedSplits ts defs title).bestCumulativeTimes = List.replicate defs.length 0 ∧
      (SetPredefinedSplits ts defs title).pbSplitTimes = List.replicate defs.length 0) ∧
    (defs.length = ts.bestSplitTimes.length →
      (SetPredefinedSplits ts defs title).bestSplitTimes = ts.bestSplitTimes ∧
      (SetPredefinedSplits ts defs title).bestCumulativeTimes = ts.bestCumulativeTimes ∧
      (SetPredefinedSplits ts defs title).pbSplitTimes = ts.pbSplitTimes) := by
  simp only [SetPredefinedSplits]
  split_ifs with h1 h2 h3 <;> constructor <;> intro h <;> simp_all

/-- C9: an inbound frame that fails JSON decoding is discarded by the hub
loop: the timer state is unchanged, no snapshot is broadcast (no observer
queue changes), and no observer is unregistered. -/
theorem malformed_frame_discarded (h : Hub) (now : Int) :
    (handleMessage h .malformed now).timer = h.timer ∧
    (handleMessage h .malformed now).clients = h.clients ∧
    handleMessage h .malformed now = h :=
  ⟨rfl, rfl, rfl⟩

/-- C8: a broadcast delivers the snapshot to exactly the clients whose
outbound queue has room and closes and removes every saturated client; in
particular a single `start` command with 3 registered observers, one of them
saturated, delivers to exactly the other 2 and drops the saturated one. -/
theorem broadcast_fanout :
    (∀ (clients : List Client) (st : TimerState),
      (broadcastState clients st).1 =
        (clients.filter (fun c => hasRoom c)).map (enqueue st) ∧
      (broadcastState clients st).2 =
        clients.filter (fun c => ! hasRoom c)) ∧
    (let st := Start NewTimerState 0
     handleMessage
        ⟨[⟨1, 2, []⟩, ⟨2, 1, [NewTimerState]⟩, ⟨3, 2, []⟩], NewTimerState⟩
        (.decoded .start) 0 =
      ⟨[⟨1, 2, [st]⟩, ⟨3, 2, [st]⟩], st⟩) := by
  constructor
  · intro clients st
    induction clients with
    | nil => exact ⟨rfl, rfl⟩
    | cons c rest ih =>
      simp only [broadcastState, List.filter_cons]
      by_cases h : hasRoom c <;> simp [h, ih.1, ih.2]
  · rfl

/-- C10: `SetPredefinedSplits` on a running timer keeps status "running" and
the recorded splits but sets the index to -1, and the -1 index makes every
`NextSplit` a no-op and is kept by Pause, Update and by Start unless the
timer is restarted from "stopped". -/
theorem setSplits_whileRunning :
    (∀ (ts : TimerState) (defs : List SplitDefinition) (title : String),
      ts.status = "running" →
      (SetPredefinedSplits ts defs title).status = "running" ∧
      (SetPredefinedSplits ts defs title).splits = ts.splits ∧
      (SetPredefinedSplits ts defs title).currentSplitIndex = -1) ∧
    (∀ (ts : TimerState) (now : Int), ts.currentSplitIndex = -1 →
      NextSplit ts now = ts) ∧
    (∀ (ts : TimerState) (now : Int),
      (Pause ts now).currentSplitIndex = ts.currentSplitIndex) ∧
    (∀ (ts : TimerState) (now : Int),
      (Update ts now).currentSplitIndex = ts.currentSplitIndex) ∧
    (∀ (ts : TimerState) (now : Int), ts.status ≠ "stopped" →
      (Start ts now).currentSplitIndex = ts.currentSplitIndex) := by
  refine ⟨?_, ?_, ?_, ?_, ?_⟩
  · intro ts defs title h
    simp only [SetPredefinedSplits]
    split_ifs <;> simp_all
  · intro ts now h
    simp only [NextSplit]
    rw [if_pos]
    right; left; rw [h]; decide
  · intro ts now
    simp only [Pause]
    split_ifs <;> rfl
  · intro ts now
    simp only [Update]
    split_ifs <;> rfl
  · intro ts now h
    simp only [Start]
    split_ifs <;> simp_all

/-- Witness for C10 at a concrete running state: changing the layout mid-run
leaves the index at -1 and the next `NextSplit` changes nothing. -/
theorem setSplits_whileRunning_witness :
    (SetPredefinedSplits (Start (SetPredefinedSplits NewTimerState [⟨"A", ""⟩] "t") 0)
        [⟨"B", ""⟩] "u").currentSplitIndex = -1 ∧
    NextSplit (SetPredefinedSplits (Start (SetPredefinedSplits NewTimerState [⟨"A", ""⟩] "t") 0)
        [⟨"B", ""⟩] "u") 5 =
      SetPredefinedSplits (Start (SetPredefinedSplits NewTimerState [⟨"A", ""⟩] "t") 0)
        [⟨"B", ""⟩] "u" := by
  have h := setSplits_whileRunning
  exact ⟨(h.1 _ [⟨"B", ""⟩] "u" rfl).2.2, h.2.1 _ 5 (h.1 _ [⟨"B", ""⟩] "u" rfl).2.2⟩

/-- Witness for C6 at concrete inputs: growing the layout from 0 to 1 split
zeroes the arrays at length 1, and re-sending a layout of the same count
leaves them untouched. -/
theorem setPredefinedSplits_bestArrays_witness :
    (SetPredefinedSplits NewTimerState [⟨"A", ""⟩] "t").bestSplitTimes = [0] ∧
    (SetPredefinedSplits NewTimerState [] "t").bestSplitTimes = [] := by
  have h1 := (setPredefinedSplits_bestArrays NewTimerState [⟨"A", ""⟩] "t").1 (by decide)
  have h2 := (setPredefinedSplits_bestArrays NewTimerState [] "t").2 (by decide)
  exact ⟨by rw [h1.1]; rfl, by rw [h2.1]; rfl⟩

/-- C2 counterexample: the claimed invariant "sumOfBest always equals the sum
of bestSegmentTimes and is never set except by recomputation" fails on two
reachable states: `RestorePBData` writes `sumOfBest` directly from the
snapshot (here 5, while the arrays are empty), and `SetPredefinedSplits` with
a different count zeroes the arrays without recomputing `sumOfBest` (here it
stays 10 over all-zero arrays). -/
theorem sumOfBest_set_directly :
    (Reachable (RestorePBData NewTimerState ⟨none, none, none, some 5, none, none⟩) ∧
     ¬ SumOfBestInv (RestorePBData NewTimerState ⟨none, none, none, some 5, none, none⟩)) ∧
    (Reachable
        (SetPredefinedSplits
          (NextSplit (Start (SetPredefinedSplits NewTimerState [⟨"A", ""⟩] "t") 0) 10)
          [⟨"A", ""⟩, ⟨"B", ""⟩] "t") ∧
     ¬ SumOfBestInv
        (SetPredefinedSplits
          (NextSplit (Start (SetPredefinedSplits NewTimerState [⟨"A", ""⟩] "t") 0) 10)
          [⟨"A", ""⟩, ⟨"B", ""⟩] "t")) := by
  refine ⟨⟨.restore _ _ .init, ?_⟩,
          ⟨.setSplits _ _ _ (.next _ _ (.start _ _ (.setSplits _ _ _ .init))), ?_⟩⟩ <;>
    (simp only [SumOfBestInv]; decide)

/-- Auxiliary preservation: `NextSplit` keeps `sumOfBest` equal to the sum of
`bestSplitTimes` (it recomputes it whenever it changes a best segment). -/
theorem nextSplit_sumOfBest (ts : TimerState) (now : Int)
    (h : SumOfBestInv ts) : SumOfBestInv (NextSplit ts now) := by
  simp only [NextSplit]
  split_ifs with hg
  · exact h
  all_goals
    simp only [SumOfBestInv, finishRun_sumOfBest, finishRun_bestSplitTimes]
  all_goals
    exact updateBests_sumOfBest _ _ _ h

/-- C2 amended: `sumOfBest = sum(bestSegmentTimes)` holds initially and is
preserved by Start, Pause, Reset, NextSplit, Update, setWorldRecord, and by
SetPredefinedSplits when the split count is unchanged; it is not preserved by
RestorePBData (which sets `sumOfBest` directly from the snapshot) nor by a
resizing SetPredefinedSplits (which zeroes the arrays without recomputing). -/
theorem sumOfBest_recomputed :
    SumOfBestInv NewTimerState ∧
    (∀ (ts : TimerState) (now : Int), SumOfBestInv ts → SumOfBestInv (Start ts now)) ∧
    (∀ (ts : TimerState) (now : Int), SumOfBestInv ts → SumOfBestInv (Pause ts now)) ∧
    (∀ ts : TimerState, SumOfBestInv ts → SumOfBestInv (Reset ts)) ∧
    (∀ (ts : TimerState) (now : Int), SumOfBestInv ts → SumOfBestInv (NextSplit ts now)) ∧
    (∀ (ts : TimerState) (now : Int), SumOfBestInv ts → SumOfBestInv (Update ts now)) ∧
    (∀ (ts : TimerState) (w : Int), SumOfBestInv ts → SumOfBestInv (setWorldRecord ts w)) ∧
    (∀ (ts : TimerState) (defs : List SplitDefinition) (title : String),
      SumOfBestInv ts → defs.length = ts.bestSplitTimes.length →
      SumOfBestInv (SetPredefinedSplits ts defs title)) := by
  refine ⟨rfl, ?_, ?_, ?_, ?_, ?_, ?_, ?_⟩
  · intro ts now h
    simp only [SumOfBestInv, Start] at h ⊢
    split_ifs <;> exact h
  · intro ts now h
    simp only [SumOfBestInv, Pause] at h ⊢
    split_ifs <;> exact h
  · intro ts h
    exact h
  · intro ts now h
    exact nextSplit_sumOfBest ts now h
  · intro ts now h
    simp only [SumOfBestInv, Update] at h ⊢
    split_ifs <;> exact h
  · intro ts w h
    exact h
  · intro ts defs title h hlen
    simp only [SumOfBestInv, SetPredefinedSplits] at h ⊢
    split_ifs with h1 h2 <;> simp_all

/-- Witness for the amended C2 at concrete inputs: a completed one-split run
has `sumOfBest` equal to the sum of its best segment times. -/
theorem sumOfBest_recomputed_witness :
    SumOfBestInv (NextSplit (Start (SetPredefinedSplits NewTimerState [] "t") 0) 10) := by
  have h := sumOfBest_recomputed
  exact h.2.2.2.2.1 _ 10
    (h.2.1 _ 0 (h.2.2.2.2.2.2.2 NewTimerState [] "t" h.1 (by decide)))

/-- C3 counterexample: `Pause` while already paused is not a no-op — it
resumes the timer (the source comment itself says "toggles pause/unpause"):
pausing the paused state obtained at instant 5 again at instant 7 yields
status "running" and a different state. -/
theorem pause_while_paused_toggles :
    (Pause (Start NewTimerState 0) 5).status = "paused" ∧
    (Pause (Pause (Start NewTimerState 0) 5) 7).status = "running" ∧
    ¬ (Pause (Pause (Start NewTimerState 0) 5) 7 = Pause (Start NewTimerState 0) 5) := by
  refine ⟨rfl, rfl, ?_⟩
  decide

/-- C4 counterexample: the parallel-length invariant fails on reachable
states.  Completing a second, faster run without a Reset (Start from
"stopped" does not clear `splits`) snapshots 2 cumulative times into
`pbSplitTimes` although the layout has 1 split; and `RestorePBData` with an
arbitrary snapshot installs a 1-entry `bestSplitTimes` over a 0-split
layout. -/
theorem bestArray_lengths_diverge :
    (Reachable (NextSplit (Start (NextSplit (Start (SetPredefinedSplits NewTimerState
        [⟨"A", ""⟩] "t") 0) 10) 20) 25) ∧
     (NextSplit (Start (NextSplit (Start (SetPredefinedSplits NewTimerState
        [⟨"A", ""⟩] "t") 0) 10) 20) 25).pbSplitTimes.length = 2 ∧
     (NextSplit (Start (NextSplit (Start (SetPredefinedSplits NewTimerState
        [⟨"A", ""⟩] "t") 0) 10) 20) 25).predefinedSplits.length = 1) ∧
    (Reachable (RestorePBData NewTimerState ⟨some [some 7], none, none, none, none, none⟩) ∧
     (RestorePBData NewTimerState
        ⟨some [some 7], none, none, none, none, none⟩).bestSplitTimes.length = 1 ∧
     (RestorePBData NewTimerState
        ⟨some [some 7], none, none, none, none, none⟩).predefinedSplits.length = 0) := by
  refine ⟨⟨.next _ _ (.start _ _ (.next _ _ (.start _ _ (.setSplits _ _ _ .init)))), ?_, ?_⟩,
          ⟨.restore _ _ .init, ?_, ?_⟩⟩ <;> decide

/-- C4 amended: for every state reachable with layout-matching restore
snapshots, `bestSplitTimes` and `bestCumulativeTimes` have exactly the length
of `predefinedSplits` (`pbSplitTimes` is excluded: a PB run finishing with
leftover splits records a longer snapshot, see the counterexample). -/
theorem bestArray_lengths_match (ts : TimerState) (h : ReachableSane ts) : LenInv ts := by
  induction h with
  | init => exact ⟨rfl, rfl⟩
  | start ts now _ ih =>
    simp only [LenInv, Start] at ih ⊢
    split_ifs <;> exact ih
  | pause ts now _ ih =>
    simp only [LenInv, Pause] at ih ⊢
    split_ifs <;> exact ih
  | reset ts _ ih => exact ih
  | setSplits ts defs title _ ih =>
    simp only [LenInv, SetPredefinedSplits] at ih ⊢
    split_ifs with h1 h2 <;> simp_all
  | next ts now _ ih =>
    simp only [LenInv, NextSplit] at ih ⊢
    split_ifs with hg
    · exact ih
    all_goals
      simp only [finishRun_bestSplitTimes, finishRun_bestCumulativeTimes,
        finishRun_predefinedSplits, updateBests_bstLength, updateBests_bctLength,
        updateBests_predefinedSplits]
    all_goals exact ih
  | update ts now _ ih =>
    simp only [LenInv, Update] at ih ⊢
    split_ifs <;> exact ih
  | restore ts snap hs _ ih =>
    simp only [LenInv, RestorePBData] at ih ⊢
    constructor
    · rcases he : snap.bestSplitTimes with _ | l
      · simpa [restoreTimes, he] using ih.1
      · simp [restoreTimes, he, hs.1 l he]
    · rcases he : snap.bestCumulativeTimes with _ | l
      · simpa [restoreTimes, he] using ih.2
      · simp [restoreTimes, he, hs.2 l he]
  | setWR ts w _ ih => exact ih

/-- Witness for the amended C4 at a concrete reachable state: after
installing a one-split layout, both best-time arrays have length 1. -/
theorem bestArray_lengths_match_witness :
    LenInv (SetPredefinedSplits NewTimerState [⟨"A", ""⟩] "t") :=
  bestArray_lengths_match _ (.setSplits _ _ _ .init)

/-- One Start/Pause command preserves the clock correspondence. -/
theorem clockInv_step (ts : TimerState) (s : SpecClock) (e : TEvent × Int)
    (h : ClockInv ts s) : ClockInv (applyTimed ts e) (specTick s e) := by
  obtain ⟨h1, h2, h3, h4⟩ := h
  rcases e with ⟨ev, t⟩
  rcases h2 with hs | hs | hs <;> rcases ev <;>
    simp [applyTimed, specTick, Start, Pause, ClockInv, hs, h1] <;>
    (simp [hs] at h3 h4; omega)

/-- A whole trace of Start/Pause commands preserves the clock
correspondence. -/
theorem clockInv_trace (evs : List (TEvent × Int)) (ts : TimerState) (s : SpecClock)
    (h : ClockInv ts s) : ClockInv (runTrace ts evs) (evs.foldl specTick s) := by
  induction evs generalizing ts s with
  | nil => exact h
  | cons e rest ih =>
    simp only [runTrace, List.foldl_cons]
    exact ih _ _ (clockInv_step ts s e h)

/-- C3 amended: after any sequence of Start/Pause commands from the initial
state, the statuses match the specification clock; while running, the elapsed
time read by `Update` equals the wall-clock time accumulated while the status
was "running" (excluding paused time), and while paused the frozen
`pausedAt` equals that accumulated running time; repeated `Start` while
running is a no-op (whereas `Pause` while paused resumes, see the
counterexample). -/
theorem elapsed_matches_wallclock (evs : List (TEvent × Int)) (now : Int) :
    (runTrace NewTimerState evs).status = (specTrace evs).status ∧
    ((specTrace evs).status = "running" →
      (Update (runTrace NewTimerState evs) now).currentTime =
        (specTrace evs).runningTotal + (now - (specTrace evs).lastEvent)) ∧
    ((specTrace evs).status = "paused" →
      (runTrace NewTimerState evs).pausedAt = (specTrace evs).runningTotal) ∧
    (∀ u : TimerState, u.status = "running" → Start u now = u) := by
  have hinit : ClockInv NewTimerState ⟨"stopped", 0, 0⟩ := by
    refine ⟨rfl, Or.inl rfl, ?_, ?_⟩ <;> intro hc <;> exact absurd hc (by decide)
  have hinv := clockInv_trace evs NewTimerState ⟨"stopped", 0, 0⟩ hinit
  obtain ⟨h1, _, h3, h4⟩ := hinv
  simp only [specTrace]
  refine ⟨h1, ?_, h4, ?_⟩
  · intro hr
    have hst : (runTrace NewTimerState evs).status = "running" := by rw [h1, hr]
    simp only [Update, hst, if_pos]
    rw [h3 hr]
    ring
  · intro u hu
    rw [Start]
    rw [if_neg (by rw [hu]; decide), if_neg (by rw [hu]; decide)]
    cases u
    simp_all

/-- Witness for the amended C3 on a concrete trace: start at instant 2,
pause at 5 (3 units running), resume at 9, read at 10 — elapsed is 4. -/
theorem elapsed_matches_wallclock_witness :
    (Update (runTrace NewTimerState
        [(.startCmd, 2), (.pauseCmd, 5), (.startCmd, 9)]) 10).currentTime = 4 := by
  have h := elapsed_matches_wallclock [(.startCmd, 2), (.pauseCmd, 5), (.startCmd, 9)] 10
  rw [h.2.1 (by decide)]
  decide

/-- Appending a split adds its segment time to the segment-time sum. -/
theorem segSum_append (l : List Split) (s : Split) :
    segSum (l ++ [s]) = segSum l + s.segmentTime := by
  simp [segSum]

/-- Appending a split makes its cumulative time the last one. -/
theorem lastCum_append (l : List Split) (s : Split) :
    lastCum (l ++ [s]) = s.cumulativeTime := by
  simp [lastCum, List.getLastD_concat]

/-- The segment-time computation of `NextSplit` always equals the new
cumulative time minus the last recorded cumulative time. -/
theorem segTime_formula (l : List Split) (a : Int) :
    (if 0 < l.length then a - (l.getLastD emptySplit).cumulativeTime else a) =
      a - lastCum l := by
  cases l <;> simp [lastCum, emptySplit]

/-- `NextSplit` preserves the telescoping invariant. -/
theorem nextSplit_segSumInv (ts : TimerState) (now : Int)
    (h : SegSumInv ts) : SegSumInv (NextSplit ts now) := by
  simp only [NextSplit, segTime_formula]
  split_ifs with hg
  · exact h
  all_goals
    simp only [SegSumInv, finishRun_splits, finishRun_currentTime, updateBests_splits,
      segSum_append, lastCum_append]
  all_goals
    simp only [SegSumInv] at h
    omega

/-- Every reachable state satisfies the telescoping invariant: its recorded
segment times sum to the last recorded cumulative time. -/
theorem segSumInv_reachable (ts : TimerState) (h : Reachable ts) : SegSumInv ts := by
  induction h with
  | init => exact rfl
  | start ts now _ ih =>
    simp only [SegSumInv, Start] at ih ⊢
    split_ifs <;> exact ih
  | pause ts now _ ih =>
    simp only [SegSumInv, Pause] at ih ⊢
    split_ifs <;> exact ih
  | reset ts _ ih => exact rfl
  | setSplits ts defs title _ ih =>
    simp only [SegSumInv, SetPredefinedSplits] at ih ⊢
    split_ifs <;> simp_all [segSum, lastCum, emptySplit]
  | next ts now _ ih => exact nextSplit_segSumInv ts now ih
  | update ts now _ ih =>
    simp only [SegSumInv, Update] at ih ⊢
    split_ifs <;> exact ih
  | restore ts snap _ ih => exact ih
  | setWR ts w _ ih => exact ih

/-- C5: on any reachable state, the `NextSplit` that completes the final
predefined split leaves the segment times of all recorded splits summing
exactly to the run's elapsed time (`currentTime`), with status "stopped" and
`currentSplitIndex = -1`. -/
theorem final_split_telescopes (ts : TimerState) (now : Int)
    (hr : Reachable ts) (h1 : ts.status = "running")
    (h2 : 0 ≤ ts.currentSplitIndex)
    (h3 : ts.currentSplitIndex = (ts.predefinedSplits.length : Int) - 1) :
    segSum (NextSplit ts now).splits = (NextSplit ts now).currentTime ∧
    (NextSplit ts now).status = "stopped" ∧
    (NextSplit ts now).currentSplitIndex = -1 := by
  have hs : SegSumInv ts := segSumInv_reachable ts hr
  simp only [SegSumInv] at hs
  have hg : ¬ (ts.status ≠ "running" ∨ ts.currentSplitIndex < 0 ∨
      (ts.predefinedSplits.length : Int) ≤ ts.currentSplitIndex) := by
    push_neg
    refine ⟨by simp [h1], h2, by omega⟩
  simp only [NextSplit, segTime_formula]
  rw [if_neg hg, if_pos h3]
  refine ⟨?_, finishRun_status _ _, finishRun_currentSplitIndex _ _⟩
  rw [finishRun_splits, finishRun_currentTime]
  simp only [updateBests_splits, segSum_append, lastCum_append]
  omega

/-- Witness for C5 at a concrete reachable state: a one-split run started at
instant 0 and split at instant 7. -/
theorem final_split_telescopes_witness :
    segSum (NextSplit (Start (SetPredefinedSplits NewTimerState [⟨"A", ""⟩] "t") 0) 7).splits =
      (NextSplit (Start (SetPredefinedSplits NewTimerState [⟨"A", ""⟩] "t") 0) 7).currentTime ∧
    (NextSplit (Start (SetPredefinedSplits NewTimerState [⟨"A", ""⟩] "t") 0) 7).status = "stopped" ∧
    (NextSplit (Start (SetPredefinedSplits NewTimerState [⟨"A", ""⟩] "t") 0) 7).currentSplitIndex = -1 :=
  final_split_telescopes _ 7 (.start _ _ (.setSplits _ _ _ .init))
    (by decide) (by decide) (by decide)

/-- C1: when `NextSplit` completes the final predefined split of a running
timer, `personalBest` becomes the run's total elapsed time exactly when that
total is strictly lower than the previous `personalBest` or `personalBest`
was zero; in that case `pbSplitTimes` becomes the snapshot of this run's
cumulative split times and `worldRecord` is lowered to the new best exactly
when it was non-zero and strictly beaten; otherwise all three fields are
unchanged. -/
theorem personalBest_update_iff (ts : TimerState) (now : Int)
    (h1 : ts.status = "running") (h2 : 0 ≤ ts.currentSplitIndex)
    (h3 : ts.currentSplitIndex = (ts.predefinedSplits.length : Int) - 1) :
    ((ts.personalBest = 0 ∨ now - ts.startTime < ts.personalBest) →
      (NextSplit ts now).personalBest = now - ts.startTime ∧
      (NextSplit ts now).pbSplitTimes =
        (NextSplit ts now).splits.map (fun s => s.cumulativeTime) ∧
      (NextSplit ts now).worldRecord =
        (if 0 < ts.worldRecord ∧ now - ts.startTime < ts.worldRecord
         then now - ts.startTime else ts.worldRecord)) ∧
    (¬ (ts.personalBest = 0 ∨ now - ts.startTime < ts.personalBest) →
      (NextSplit ts now).personalBest = ts.personalBest ∧
      (NextSplit ts now).pbSplitTimes = ts.pbSplitTimes ∧
      (NextSplit ts now).worldRecord = ts.worldRecord) := by
  have hg : ¬ (ts.status ≠ "running" ∨ ts.currentSplitIndex < 0 ∨
      (ts.predefinedSplits.length : Int) ≤ ts.currentSplitIndex) := by
    push_neg
    refine ⟨by simp [h1], h2, by omega⟩
  simp only [NextSplit, segTime_formula]
  rw [if_neg hg, if_pos h3]
  simp only [finishRun, updateBests_personalBest, updateBests_pbSplitTimes,
    updateBests_worldRecord, updateBests_splits]
  split_ifs with hpb hwr <;> constructor <;> intro hc <;> simp_all

/-- Witness for C1 at a concrete input: a first-ever one-split run finished
at instant 7 records a personal best of 7. -/
theorem personalBest_update_iff_witness :
    (NextSplit (Start (SetPredefinedSplits NewTimerState [⟨"A", ""⟩] "t") 0) 7).personalBest = 7 := by
  have h := (personalBest_update_iff
    (Start (SetPredefinedSplits NewTimerState [⟨"A", ""⟩] "t") 0) 7
    (by decide) (by decide) (by decide)).1 (by decide)
  rw [h.1]
  decide

end OpenSplit
